import Mathlib

/-!
Verification of the natural-language specification of `mcp-roslyn-symbols`
against its implementation (`src/lsp-client.js`, class `RoslynLspClient` and
the exported symbol utilities).

The JavaScript code is shallowly embedded:

* JS strings are modelled as `List Char`.  JavaScript strings are sequences of
  UTF-16 code units; for characters of the Basic Multilingual Plane one code
  unit corresponds to one Lean `Char`, so `String.prototype.substring`,
  `.length` and `.indexOf` translate to `List.take`/`List.drop`, `List.length`
  and a first-occurrence search.  `Buffer.byteLength` (UTF-8 byte count) is
  modelled by `utf8Len` below; the two measures differ exactly on non-ASCII
  text, which is the crux of the transport claims.
* The mutable session object (`messageId`, `pendingRequests`, `buffer`)
  becomes an explicit `ClientState` record threaded through the operations.
* Promise resolution/rejection of a request is modelled as an emitted
  completion event `(id, CompletionKind)`.
* `async` polling loops become fuel-indexed recursions where the fuel is the
  remaining number of loop iterations, exactly as bounded in the source.
-/

/-- The four-character header/body separator "\r\n\r\n" searched for by
`RoslynLspClient.handleData`. -/
def crlf2 : List Char := ['\r', '\n', '\r', '\n']

/-- The literal text "Content-Length: " that the header regex
`/Content-Length: (\d+)/` requires before the digit group. -/
def clPat : List Char := ("Content-Length: ").toList

/-- Decides whether `pat` occurs at the front of `l` (character-wise equality),
modelling an anchored match attempt of a literal pattern. -/
def isPre : List Char → List Char → Bool
  | [], _ => true
  | _ :: _, [] => false
  | a :: as, b :: bs => a = b && isPre as bs

/-- First index at which `pat` occurs in `l`, modelling
`String.prototype.indexOf` for a literal pattern (and the scan order of a JS
regex engine over candidate start positions). -/
def findSub : List Char → List Char → Option Nat
  | l, pat =>
    match l with
    | [] => if isPre pat [] then some 0 else none
    | c :: tl => if isPre pat (c :: tl) then some 0 else (findSub tl pat).map (· + 1)

/-- `String.prototype.includes`, used for the "roslyn-canonical-misc"
fingerprint test in `waitForRealProjectLoad`. -/
def containsSub (l pat : List Char) : Bool := (findSub l pat).isSome

/-- Value of a list of decimal digit characters, most significant first:
models `parseInt(digits, 10)` on the capture of `(\d+)`. -/
def digitsToNat (l : List Char) : Nat :=
  l.foldl (fun a c => 10 * a + (c.toNat - 48)) 0

/-- The decimal digit character for `n % 10`. -/
def digitChar (n : Nat) : Char :=
  match n % 10 with
  | 0 => '0' | 1 => '1' | 2 => '2' | 3 => '3' | 4 => '4'
  | 5 => '5' | 6 => '6' | 7 => '7' | 8 => '8' | _ => '9'

/-- Fuel-indexed decimal printer; with fuel above `n` it produces the standard
decimal representation of `n`, as produced by JS template interpolation of a
number. -/
def natDigitsAux : Nat → Nat → List Char
  | 0, _ => []
  | fuel + 1, n =>
    if n < 10 then [digitChar n]
    else natDigitsAux fuel (n / 10) ++ [digitChar (n % 10)]

/-- Decimal representation of `n`, as interpolated into the Content-Length
header by `sendRequest` / `sendNotification` / `sendResponse`. -/
def natDigits (n : Nat) : List Char := natDigitsAux (n + 1) n

/-- UTF-8 size in bytes of one UTF-16 code unit worth of text; `utf8Len`
models `Buffer.byteLength` on well-formed strings (a surrogate pair
contributes 2 + 2 = 4 bytes just as the single supplementary character
would; all concrete inputs below stay in the BMP). -/
def charUtf8Size (c : Char) : Nat :=
  if c.toNat < 128 then 1
  else if c.toNat < 2048 then 2
  else if c.toNat < 65536 then 3
  else 4

/-- `Buffer.byteLength(content)`: the UTF-8 byte count of a JS string. -/
def utf8Len (l : List Char) : Nat := (l.map charUtf8Size).sum

/-- The outbound framing shared by `sendRequest`, `sendNotification` and
`sendResponse`: `Content-Length: <byteLength>\r\n\r\n<content>`. -/
def encodeFrame (content : List Char) : List Char :=
  clPat ++ natDigits (utf8Len content) ++ crlf2 ++ content

/-- The regex search `headers.match(/Content-Length: (\d+)/)` followed by
`parseInt(match[1], 10)`: scan start positions left to right; a position
matches when the literal "Content-Length: " is followed by at least one
digit, and the greedy digit run is the capture.  Returns `none` when no
position matches, in which case `handleData` hits its `break`. -/
def findCL : List Char → Option Nat
  | [] => none
  | c :: tl =>
    if isPre clPat (c :: tl) then
      let ds := ((c :: tl).drop clPat.length).takeWhile Char.isDigit
      if ds.isEmpty then findCL tl else some (digitsToNat ds)
    else findCL tl

/-- The `while (true)` loop of `RoslynLspClient.handleData`, lines 114-139:
find "\r\n\r\n"; parse Content-Length out of the headers; if the buffer holds
fewer than `messageEnd` UTF-16 units, wait for more data; otherwise slice the
body, keep the remainder, and loop.  Each sliced body is fed to
`JSON.parse`/`handleMessage`; a parse failure is caught and logged, so the
loop continues either way and the function returns the sliced bodies in
order.  The fuel is an upper bound on loop iterations (each iteration removes
at least 4 characters from the buffer). -/
def drainAux : Nat → List Char → List (List Char) × List Char
  | 0, buf => ([], buf)
  | fuel + 1, buf =>
    match findSub buf crlf2 with
    | none => ([], buf)
    | some headerEnd =>
      match findCL (buf.take headerEnd) with
      | none => ([], buf)
      | some contentLength =>
        let messageEnd := headerEnd + 4 + contentLength
        if buf.length < messageEnd then ([], buf)
        else
          let content := (buf.take messageEnd).drop (headerEnd + 4)
          let out := drainAux fuel (buf.drop messageEnd)
          (content :: out.1, out.2)

/-- One call of `handleData`: append the incoming chunk to the accumulated
buffer and drain all complete frames.  Chunks are modelled at character
granularity; for ASCII data this matches `data.toString()` byte for byte. -/
def handleData (buf data : List Char) : List (List Char) × List Char :=
  drainAux (buf ++ data).length (buf ++ data)

/-- Sequential arrival of several chunks on stdout, starting from buffer
`st`; returns all decoded bodies in order and the final buffer. -/
def processChunks (st : List Char) : List (List Char) → List (List Char) × List Char
  | [] => ([], st)
  | c :: cs =>
    let out := handleData st c
    let rest := processChunks out.2 cs
    (out.1 ++ rest.1, rest.2)

/-! ## RPC session state -/

/-- Outcome delivered to a suspended caller of `sendRequest`: the promise is
either resolved with the result or rejected with an error. -/
inductive CompletionKind
  | resolved
  | rejected
deriving DecidableEq, Repr

/-- The mutable fields of `RoslynLspClient` relevant to request correlation:
`messageId` (last allocated id), `pendingRequests` (modelled as the
characteristic function of the Map's key set; a JS Map holds at most one
entry per key) and the receive `buffer`. -/
structure ClientState where
  messageId : Nat
  pending : Nat → Bool
  buffer : List Char

/-- `pendingRequests.set(id, ...)`. -/
def pendingAdd (p : Nat → Bool) (id : Nat) : Nat → Bool :=
  fun k => if k = id then true else p k

/-- `pendingRequests.delete(id)`. -/
def pendingRemove (p : Nat → Bool) (id : Nat) : Nat → Bool :=
  fun k => if k = id then false else p k

/-- `RoslynLspClient.sendRequest`, lines 273-299: allocate `id = ++messageId`,
register the pending entry, write the frame to stdin (outbound I/O elided),
and arm the 120-second deadline timer (`timeoutFire` below).  Returns the
allocated id together with the updated session state. -/
def sendRequest (s : ClientState) : Nat × ClientState :=
  let id := s.messageId + 1
  (id, ⟨id, pendingAdd s.pending id, s.buffer⟩)

/-- The `setTimeout` callback armed by `sendRequest` (lines 291-297): if the
id is still pending after 120 s, delete the entry and reject the caller;
otherwise do nothing.  The emitted completion, if any, is returned. -/
def timeoutFire (s : ClientState) (id : Nat) :
    ClientState × Option (Nat × CompletionKind) :=
  if s.pending id then
    (⟨s.messageId, pendingRemove s.pending id, s.buffer⟩,
      some (id, CompletionKind.rejected))
  else (s, none)

/-- The response branch of `RoslynLspClient.handleMessage`, lines 154-164,
reached for an inbound message that has an `id` and no `method`: if the id
matches a pending entry, delete it and resolve or reject the caller depending
on the presence of an `error` member; otherwise fall through with no effect at
all. -/
def handleResponseMessage (s : ClientState) (id : Nat) (err : Option String) :
    ClientState × Option (Nat × CompletionKind) :=
  if s.pending id then
    (⟨s.messageId, pendingRemove s.pending id, s.buffer⟩,
      some (id, match err with
        | some _ => CompletionKind.rejected
        | none => CompletionKind.resolved))
  else (s, none)

/-- Effect on the session of the child process emitting an `exit`/`close`
event.  `RoslynLspClient.start` (lines 66-101) registers listeners only for
`stdout` `data`, `stderr` `data` and the process `error` event; no listener is
attached for `exit` or `close`, and `stop` merely kills the process.  A Node
`ChildProcess` delivers `exit` to its registered listeners, so with none
registered no client code runs: the session state is untouched and no pending
request is completed. -/
def onProcessExit (s : ClientState) (_code : Int) :
    ClientState × List (Nat × CompletionKind) := (s, [])

/-- Effect of the process `error` event: `start` registers a listener that
rejects the promise returned by `start` itself (a spawn failure); the
pending-request map is not touched and no pending caller is completed. -/
def onProcessError (s : ClientState) (_msg : String) :
    ClientState × List (Nat × CompletionKind) := (s, [])

/-- Invariant maintained by the session: every outstanding id was allocated,
i.e. is at most the current `messageId`. -/
def SessionInv (s : ClientState) : Prop :=
  ∀ k, s.pending k = true → k ≤ s.messageId

/-- The all-fresh session state right after construction:
`messageId = 0`, no pending requests, empty buffer. -/
def initialClientState : ClientState := ⟨0, fun _ => false, []⟩

/-! ## Readiness detector -/

/-- Errors surfaced by the modelled operations.  `readinessTimeout n` stands
for the `Error` thrown after the retry loop of `waitForRealProjectLoad`
exhausts its `n` attempts. -/
inductive LspError
  | readinessTimeout (maxRetries : Nat)
deriving DecidableEq, Repr

/-- A zero-based source position. -/
structure Position where
  line : Nat
  character : Nat
deriving DecidableEq, Repr

/-- A start/end pair of positions (the LSP `Range`; `end` is a Lean keyword,
hence `startPos`/`endPos`). -/
structure SrcRange where
  startPos : Position
  endPos : Position
deriving DecidableEq, Repr

/-- An LSP `Location` as consumed by the client: the code reads only the
`uri` member of the first element of a definition result. -/
structure Loc where
  uri : List Char
  range : SrcRange
deriving DecidableEq, Repr

/-- The placeholder-project fingerprint: Canonical-project URIs always
contain "roslyn-canonical-misc" (comment above `waitForRealProjectLoad`). -/
def canonicalFingerprint : List Char := ("roslyn-canonical-misc").toList

/-- A probe result classifies as PLACEHOLDER when it is non-empty and its
first URI contains the Canonical fingerprint (the retry branch of
`waitForRealProjectLoad`). -/
def classifyPlaceholder (locs : List Loc) : Bool :=
  match locs with
  | [] => false
  | l :: _ => containsSub l.uri canonicalFingerprint

/-- A probe result classifies as REAL when it is non-empty and its first URI
does not contain the Canonical fingerprint (the immediate-success branch). -/
def classifyReal (locs : List Loc) : Bool :=
  match locs with
  | [] => false
  | l :: _ => !containsSub l.uri canonicalFingerprint

/-- The retry loop of `RoslynLspClient.waitForRealProjectLoad`, lines
404-452.  `script k` is the type-definition result returned by the server for
attempt `k` (the model covers the executions in which every probe returns;
the `catch` branch for a failed request is outside the claims).  The fuel is
the number of attempts remaining out of `maxRetries`; `attempt` is the
1-based index of the current attempt and `counter` the running
`consecutiveNonCanonicalAttempts`.  On success the function returns the
attempt number at which the loop declared readiness (observable in the
source's log output); exhausting the loop throws the readiness-timeout
error. -/
def waitFrom (script : Nat → List Loc) (maxRetries : Nat) :
    Nat → Nat → Nat → Except LspError Nat
  | 0, _, _ => .error (.readinessTimeout maxRetries)
  | fuel + 1, attempt, counter =>
    match script attempt with
    | l :: _ =>
      if containsSub l.uri canonicalFingerprint then
        waitFrom script maxRetries fuel (attempt + 1) 0
      else .ok attempt
    | [] =>
      let c := counter + 1
      if 3 ≤ c ∧ 10 < attempt then .ok attempt
      else waitFrom script maxRetries fuel (attempt + 1) c

/-- `waitForRealProjectLoad(filePath, line, character, maxRetries)`: run the
loop from attempt 1 with a zero consecutive-non-Canonical counter.  The
hardcoded constants of the source: `minConsecutiveNonCanonical = 3` and the
minimum total attempt count 10 appear inside `waitFrom`; the source default
for `maxRetries` is 60. -/
def waitForRealProjectLoad (script : Nat → List Loc) (maxRetries : Nat) :
    Except LspError Nat :=
  waitFrom script maxRetries maxRetries 1 0

/-- Attempts `a, a+1, ..., a+cnt-1` of a script, as a list of probe
results (used to phrase the spec-side run-length counter). -/
def resultsFrom (script : Nat → List Loc) (a : Nat) : Nat → List (List Loc)
  | 0 => []
  | cnt + 1 => script a :: resultsFrom script (a + 1) cnt

/-- Modelled from the spec: "Track a run-length counter of consecutive
non-PLACEHOLDER (EMPTY or REAL) classifications; any PLACEHOLDER result
resets it to zero."  Folds that step over a list of probe results starting
from `init`. -/
def runLengthCounter (init : Nat) (rs : List (List Loc)) : Nat :=
  rs.foldl (fun acc r => if classifyPlaceholder r then 0 else acc + 1) init

/-- Modelled from the spec: readiness is declared at attempt `t` when the
result is REAL, or when the run-length counter over attempts `1..t` has
reached the minimum consecutive threshold 3 and the total attempt count has
exceeded the minimum 10. -/
def specReadyAt (script : Nat → List Loc) (t : Nat) : Prop :=
  classifyReal (script t) = true ∨
    (3 ≤ runLengthCounter 0 (resultsFrom script 1 t) ∧ 10 < t)

instance (script : Nat → List Loc) (t : Nat) : Decidable (specReadyAt script t) := by
  unfold specReadyAt; infer_instance

/-- Generalisation of `specReadyAt` to a loop that starts polling at attempt
`a` with the run-length counter already at `counter`: readiness at attempt
`u ≥ a`.  `specReadyAt script t` is the instance `counter = 0`, `a = 1`. -/
def readyG (script : Nat → List Loc) (counter a u : Nat) : Prop :=
  classifyReal (script u) = true ∨
    (3 ≤ runLengthCounter counter (resultsFrom script a (u + 1 - a)) ∧ 10 < u)

/-! ## Symbol utilities -/

/-- An LSP hierarchical `DocumentSymbol`; absent `children` behaves as the
empty list in the code (`symbol.children?.length` guard). -/
structure DocumentSymbol where
  name : String
  kind : Nat
  detail : Option String
  range : SrcRange
  selectionRange : SrcRange
  children : List DocumentSymbol
deriving Repr

/-- `symbolKindToString`: the `SymbolKindMap` table with fallback
"Unknown". -/
def symbolKindToString (kind : Nat) : String :=
  match kind with
  | 1 => "File" | 2 => "Module" | 3 => "Namespace" | 4 => "Package"
  | 5 => "Class" | 6 => "Method" | 7 => "Property" | 8 => "Field"
  | 9 => "Constructor" | 10 => "Enum" | 11 => "Interface" | 12 => "Function"
  | 13 => "Variable" | 14 => "Constant" | 15 => "String" | 16 => "Number"
  | 17 => "Boolean" | 18 => "Array" | 19 => "Object" | 20 => "Key"
  | 21 => "Null" | 22 => "EnumMember" | 23 => "Struct" | 24 => "Event"
  | 25 => "Operator" | 26 => "TypeParameter"
  | _ => "Unknown"

/-- `Array.prototype.includes` on the allowed-kind list. -/
def listIncludes (l : List Nat) (x : Nat) : Bool :=
  match l with
  | [] => false
  | a :: rest => (a == x) || listIncludes rest x

/-- The `kindMap` lookup of `filterSymbolsByType` with its `|| []`
fallback. -/
def kindMapLookup (symbolType : String) : List Nat :=
  match symbolType with
  | "Property" => [7]
  | "Field" => [8]
  | "Event" => [24]
  | "Method" => [6, 9]
  | "Class" => [5]
  | "Interface" => [11]
  | "Enum" => [10]
  | _ => []

/-- `filterSymbolsByType(symbols, symbolType)`, lines 606-623. -/
def filterSymbolsByType (symbols : List DocumentSymbol) (symbolType : String) :
    List DocumentSymbol :=
  symbols.filter (fun s => listIncludes (kindMapLookup symbolType) s.kind)

/-- JS truthiness of an optional string member: `undefined` and the empty
string are falsy, every other string is truthy. -/
def truthyStr (o : Option String) : Bool :=
  match o with
  | none => false
  | some s => !(s == "")

/-- Output object of `formatSymbols`.  JS object key presence is made
explicit: `detail = some v` means the `detail` key is set to `v` (which may
itself be `undefined`, i.e. `none`); `detail = none` means the key is absent,
and likewise for `signature` and `range`. -/
structure FormattedSymbol where
  name : String
  kind : String
  detail : Option (Option String)
  signature : Option String
  range : Option SrcRange
deriving Repr

/-- The per-symbol mapper of `formatSymbols`, lines 627-642: always emit
`name` and `kind`; in full mode additionally set `detail` (possibly to
`undefined`) and `range`; in signatures-only mode set `signature` to `detail`
exactly when `detail` is truthy. -/
def formatSymbol (signaturesOnly : Bool) (s : DocumentSymbol) : FormattedSymbol :=
  if !signaturesOnly then
    ⟨s.name, symbolKindToString s.kind, some s.detail, none, some s.range⟩
  else if truthyStr s.detail then
    ⟨s.name, symbolKindToString s.kind, none, s.detail, none⟩
  else
    ⟨s.name, symbolKindToString s.kind, none, none, none⟩

/-- `formatSymbols(symbols, signaturesOnly)`. -/
def formatSymbols (symbols : List DocumentSymbol) (signaturesOnly : Bool) :
    List FormattedSymbol :=
  symbols.map (formatSymbol signaturesOnly)

mutual
/-- `traverse` of `flattenSymbols`: push the node, then traverse its children
in order (depth-first, parent before children). -/
def flattenOne (s : DocumentSymbol) : List DocumentSymbol :=
  match s with
  | DocumentSymbol.mk n k d r sr cs =>
    DocumentSymbol.mk n k d r sr cs :: flattenList cs
/-- `symbols.forEach(traverse)` over a list of roots. -/
def flattenList : List DocumentSymbol → List DocumentSymbol
  | [] => []
  | s :: rest => flattenOne s ++ flattenList rest
end

/-- `flattenSymbols(symbols)`, lines 646-656. -/
def flattenSymbols (symbols : List DocumentSymbol) : List DocumentSymbol :=
  flattenList symbols

/-! ## Symbol orchestrator -/

/-- The options bag of `getSymbolsFor`; both members are optional in the
source (`options?.symbolType`, `options?.signaturesOnly || false`). -/
structure GetSymbolsOptions where
  symbolType : Option String
  signaturesOnly : Option Bool
deriving Repr

/-- Return value of `getSymbolsFor`.  The empty-resolution path returns a JS
object with no `sourceUri` key, so reading `sourceUri` yields `undefined`,
modelled as `none`. -/
structure GetSymbolsResult where
  symbols : List FormattedSymbol
  sourceUri : Option (List Char)
deriving Repr

/-- The shared tail of both branches of `getSymbolsFor`: fetch document
symbols at `uri`, flatten, filter when a symbol type was given, format. -/
def symbolPipeline (docSyms : List Char → List DocumentSymbol)
    (opts : GetSymbolsOptions) (uri : List Char) : GetSymbolsResult :=
  let syms := flattenSymbols (docSyms uri)
  let filtered :=
    match opts.symbolType with
    | some st => filterSymbolsByType syms st
    | none => syms
  ⟨formatSymbols filtered (opts.signaturesOnly.getD false), some uri⟩

/-- `RoslynLspClient.getSymbolsFor`, lines 547-595.  The document is opened
idempotently (a notification plus a cooperative sleep, with no bearing on the
return value); then the readiness wait runs against the probe script; then
the type-definition result is consulted, with fallback to the plain
definition; an empty fallback returns `{symbols: [], sourceUri: undefined}`.
`probe` supplies the readiness polls, `typeDefs` and `defs` the two
resolution answers (already normalised to arrays as `getTypeDefinition` /
`getDefinition` do), and `docSyms` the document-symbol answer per URI.  A
readiness timeout propagates as the thrown error. -/
def getSymbolsFor (probe : Nat → List Loc) (typeDefs defs : List Loc)
    (docSyms : List Char → List DocumentSymbol) (opts : GetSymbolsOptions) :
    Except LspError GetSymbolsResult :=
  match waitForRealProjectLoad probe 60 with
  | .error e => .error e
  | .ok _ =>
    match typeDefs with
    | t :: _ => .ok (symbolPipeline docSyms opts t.uri)
    | [] =>
      match defs with
      | [] => .ok ⟨[], none⟩
      | d :: _ => .ok (symbolPipeline docSyms opts d.uri)

/-! ## Concrete fixtures used by counterexamples and witnesses -/

/-- A degenerate range for concrete fixtures. -/
def range0 : SrcRange := ⟨⟨0, 0⟩, ⟨0, 0⟩⟩

/-- A location inside the Canonical placeholder project (its URI contains the
fingerprint). -/
def canonLoc : Loc :=
  ⟨("file:///tmp/roslyn-canonical-misc/vfs/Program.cs").toList, range0⟩

/-- A location inside the real project (fingerprint absent). -/
def realLoc : Loc := ⟨("file:///workspace/Program.cs").toList, range0⟩

/-- Probe script classifying as PLACEHOLDER, PLACEHOLDER, then REAL. -/
def script443 : Nat → List Loc :=
  fun k => if k = 3 then [realLoc] else [canonLoc]

/-- Probe script in which every attempt classifies as PLACEHOLDER. -/
def scriptAllCanon : Nat → List Loc := fun _ => [canonLoc]

/-- Probe script that is REAL on the very first attempt. -/
def scriptRealAtOnce : Nat → List Loc := fun _ => [realLoc]

/-- A session state with request id 1 outstanding while the server process
exits. -/
def exitState : ClientState := ⟨1, fun k => k == 1, []⟩

/-- A serialized ASCII JSON body used to exercise the transport. -/
def asciiBody : List Char := ['"', 'o', 'k', '"']

/-- A serialized JSON body containing the non-ASCII character é, whose UTF-8
byte count (4) exceeds its UTF-16 unit count (3). -/
def accentBody : List Char := ['"', 'é', '"']

/-- An inbound header block carrying no Content-Length header. -/
def badHeaderBlock : List Char := ("X-Garbage: 1").toList ++ crlf2

/-- The mixed six-node list of the spec's filter property: Property, Method,
Field, Event, Constructor, Class. -/
def nodeProp : DocumentSymbol := ⟨"Count", 7, some "int Count", range0, range0, []⟩
/-- Method node of the mixed list. -/
def nodeMethod : DocumentSymbol := ⟨"ToString", 6, some "string ToString()", range0, range0, []⟩
/-- Field node of the mixed list. -/
def nodeField : DocumentSymbol := ⟨"items", 8, none, range0, range0, []⟩
/-- Event node of the mixed list. -/
def nodeEvent : DocumentSymbol := ⟨"Changed", 24, some "", range0, range0, []⟩
/-- Constructor node of the mixed list. -/
def nodeCtor : DocumentSymbol := ⟨"List", 9, some "List()", range0, range0, []⟩
/-- Class node of the mixed list. -/
def nodeClass : DocumentSymbol := ⟨"List", 5, none, range0, range0, []⟩

/-- The six-node list in source order. -/
def mixed6 : List DocumentSymbol :=
  [nodeProp, nodeMethod, nodeField, nodeEvent, nodeCtor, nodeClass]

/-! ## C1 — process exit with pending requests -/

/-- C1 counterexample: with request 1 outstanding, the process-exit event
completes nothing and leaves the pending map untouched, refuting the claim
that every pending entry is rejected immediately at the moment of exit. -/
theorem processExit_leaves_pending_counterexample :
    exitState.pending 1 = true ∧ onProcessExit exitState 0 = (exitState, []) :=
  ⟨rfl, rfl⟩

/-- C1 amended: a process exit rejects no pending request and leaves the
session state unchanged; an outstanding request fails only when its own
120-second deadline timer fires, which removes the entry and rejects the
caller. -/
theorem processExit_no_rejection_timers_reject :
    (∀ (s : ClientState) (code : Int), onProcessExit s code = (s, [])) ∧
    (∀ (s : ClientState) (id : Nat), s.pending id = true →
       (timeoutFire s id).2 = some (id, CompletionKind.rejected) ∧
       (timeoutFire s id).1.pending id = false) := by
  constructor
  · intro s code
    rfl
  · intro s id h
    simp [timeoutFire, h, pendingRemove]

/-- Witness for the amended C1 theorem at the concrete exit-time state. -/
theorem processExit_no_rejection_timers_reject_witness :
    exitState.pending 1 = true ∧
      ((timeoutFire exitState 1).2 = some (1, CompletionKind.rejected) ∧
       (timeoutFire exitState 1).1.pending 1 = false) :=
  ⟨rfl, processExit_no_rejection_timers_reject.2 exitState 1 rfl⟩

/-! ## C3 — late response after timeout -/

/-- C3: once the deadline timer has fired for id `id` (removing the entry and
rejecting the caller, the sole completion), a response later arriving with
that id is silently ignored: no second completion is emitted and the session
state is left exactly as it was. -/
theorem late_response_after_timeout_ignored :
    ∀ (s : ClientState) (id : Nat) (err : Option String),
      s.pending id = true →
        (timeoutFire s id).2 = some (id, CompletionKind.rejected) ∧
        (timeoutFire s id).1.pending id = false ∧
        handleResponseMessage (timeoutFire s id).1 id err
          = ((timeoutFire s id).1, none) := by
  intro s id err h
  simp [timeoutFire, h, pendingRemove, handleResponseMessage]

/-- Witness for C3 at the concrete session state with id 1 pending. -/
theorem late_response_after_timeout_ignored_witness :
    exitState.pending 1 = true ∧
      ((timeoutFire exitState 1).2 = some (1, CompletionKind.rejected) ∧
       (timeoutFire exitState 1).1.pending 1 = false ∧
       handleResponseMessage (timeoutFire exitState 1).1 1 none
         = ((timeoutFire exitState 1).1, none)) :=
  ⟨rfl, late_response_after_timeout_ignored exitState 1 none rfl⟩

/-! ## C4 — readiness detector scripted behaviour -/

/-- Exhausting the loop when every remaining attempt classifies as
PLACEHOLDER yields the readiness-timeout error, for any starting attempt and
counter. -/
theorem waitFrom_all_placeholder (script : Nat → List Loc) (n : Nat) :
    ∀ fuel attempt counter,
      (∀ k, attempt ≤ k → k < attempt + fuel → classifyPlaceholder (script k) = true) →
      waitFrom script n fuel attempt counter = .error (.readinessTimeout n) := by
  intro fuel
  induction fuel with
  | zero =>
    intro attempt counter h
    rfl
  | succ m ih =>
    intro attempt counter h
    have hat : classifyPlaceholder (script attempt) = true :=
      h attempt le_rfl (by omega)
    cases hsc : script attempt with
    | nil =>
      rw [hsc] at hat
      simp [classifyPlaceholder] at hat
    | cons l rest =>
      rw [hsc] at hat
      have hc : containsSub l.uri canonicalFingerprint = true := by
        simpa [classifyPlaceholder] using hat
      simp only [waitFrom, hsc, hc, if_pos]
      exact ih (attempt + 1) 0 (fun k h1 h2 => h k (by omega) (by omega))

/-- C4: with probe results classifying as [PLACEHOLDER, PLACEHOLDER, REAL]
the detector declares readiness successfully on attempt 3 (the first REAL
result) under the default 60-attempt budget; and whenever every attempt up to
the maximum attempt count classifies as PLACEHOLDER, it fails with the
readiness-timeout error. -/
theorem readiness_script_and_timeout :
    waitForRealProjectLoad script443 60 = .ok 3 ∧
    (∀ (script : Nat → List Loc) (n : Nat),
       (∀ k, 1 ≤ k → k ≤ n → classifyPlaceholder (script k) = true) →
       waitForRealProjectLoad script n = .error (.readinessTimeout n)) := by
  constructor
  · rfl
  · intro script n h
    exact waitFrom_all_placeholder script n n 1 0 (fun k h1 h2 => h k h1 (by omega))

/-- Witness for the timeout half of C4 at a concrete all-PLACEHOLDER script
with a 12-attempt budget. -/
theorem readiness_script_and_timeout_witness :
    (∀ k, 1 ≤ k → k ≤ 12 → classifyPlaceholder (scriptAllCanon k) = true) ∧
      waitForRealProjectLoad scriptAllCanon 12 = .error (.readinessTimeout 12) :=
  ⟨fun _ _ _ => rfl, readiness_script_and_timeout.2 scriptAllCanon 12 (fun _ _ _ => rfl)⟩

/-! ## C7 — empty resolution is not an error -/

/-- C7: when the readiness wait settles and both the type-definition result
and the fallback plain-definition result are empty, `getSymbolsFor` returns
normally with an empty symbol list and no `sourceUri` key (`undefined`),
raising no error. -/
theorem getSymbolsFor_empty_resolution_ok :
    ∀ (probe : Nat → List Loc) (docSyms : List Char → List DocumentSymbol)
      (opts : GetSymbolsOptions) (t : Nat),
      waitForRealProjectLoad probe 60 = .ok t →
        getSymbolsFor probe [] [] docSyms opts = .ok ⟨[], none⟩ := by
  intro probe docSyms opts t h
  simp [getSymbolsFor, h]

/-- Witness for C7 with a probe that is REAL at once and empty resolution. -/
theorem getSymbolsFor_empty_resolution_ok_witness :
    waitForRealProjectLoad scriptRealAtOnce 60 = .ok 1 ∧
      getSymbolsFor scriptRealAtOnce [] [] (fun _ => []) ⟨none, none⟩ = .ok ⟨[], none⟩ :=
  ⟨rfl, getSymbolsFor_empty_resolution_ok scriptRealAtOnce (fun _ => []) ⟨none, none⟩ 1 rfl⟩

/-! ## C8 — kind filter "Method" -/

/-- C8: filtering with "Method" keeps exactly the nodes of kind Method (6) or
Constructor (9); the result is always a sublist of the input (original
relative order); and on the mixed six-node list it returns exactly the Method
and Constructor nodes in order. -/
theorem filterSymbolsByType_method_keeps_method_ctor :
    (∀ syms : List DocumentSymbol,
        filterSymbolsByType syms "Method"
          = syms.filter (fun s => decide (s.kind = 6 ∨ s.kind = 9))) ∧
    (∀ syms : List DocumentSymbol,
        (filterSymbolsByType syms "Method").Sublist syms) ∧
    filterSymbolsByType mixed6 "Method" = [nodeMethod, nodeCtor] := by
  refine ⟨?_, ?_, ?_⟩
  · intro syms
    unfold filterSymbolsByType
    apply List.filter_congr
    intro s _
    by_cases h6 : s.kind = 6
    · simp [kindMapLookup, listIncludes, h6]
    · by_cases h9 : s.kind = 9
      · simp [kindMapLookup, listIncludes, h6, h9]
      · simp [kindMapLookup, listIncludes, h6, h9, Ne.symm h6, Ne.symm h9]
  · intro syms
    exact List.filter_sublist syms
  · rfl

/-! ## C9 — request id uniqueness and monotonicity -/

/-- C9: each `sendRequest` allocates id `messageId + 1`, which is strictly
greater than every previously allocated id and in particular not currently
outstanding; the new entry is registered, the allocation invariant is
preserved, and a subsequent allocation yields a strictly larger id.  So no
two concurrently outstanding entries ever share an id. -/
theorem sendRequest_ids_unique_monotone :
    ∀ s : ClientState, SessionInv s →
      (sendRequest s).1 = s.messageId + 1 ∧
      s.pending (sendRequest s).1 = false ∧
      (sendRequest s).2.pending (sendRequest s).1 = true ∧
      SessionInv (sendRequest s).2 ∧
      (sendRequest s).1 < (sendRequest (sendRequest s).2).1 := by
  intro s hInv
  refine ⟨rfl, ?_, ?_, ?_, ?_⟩
  · cases h : s.pending (s.messageId + 1) with
    | false => exact h
    | true => exact absurd (hInv _ h) (by omega)
  · simp [sendRequest, pendingAdd]
  · intro k hk
    simp only [sendRequest, pendingAdd] at hk ⊢
    by_cases hk1 : k = s.messageId + 1
    · omega
    · have := hInv k (by simpa [hk1] using hk)
      omega
  · simp [sendRequest]

/-- Witness for C9 at the freshly constructed session. -/
theorem sendRequest_ids_unique_monotone_witness :
    SessionInv initialClientState ∧
      ((sendRequest initialClientState).1 = initialClientState.messageId + 1 ∧
       initialClientState.pending (sendRequest initialClientState).1 = false ∧
       (sendRequest initialClientState).2.pending (sendRequest initialClientState).1 = true ∧
       SessionInv (sendRequest initialClientState).2 ∧
       (sendRequest initialClientState).1 < (sendRequest (sendRequest initialClientState).2).1) :=
  ⟨fun k h => by simp [initialClientState] at h,
   sendRequest_ids_unique_monotone initialClientState
     (fun k h => by simp [initialClientState] at h)⟩

/-! ## C10 — signature key presence in signatures-only mode -/

/-- C10: `formatSymbols(symbols, true)` maps each input symbol to an output
object that carries a `signature` key exactly when the symbol's `detail` is
present and truthy (a non-empty string); when set, the signature is the
detail itself; in signatures-only mode the `detail` key is never set, while
in full mode it is always set (possibly to `undefined`). -/
theorem formatSymbols_signature_iff_truthy_detail :
    (∀ syms : List DocumentSymbol,
        formatSymbols syms true = syms.map (formatSymbol true)) ∧
    (∀ s : DocumentSymbol,
        (((formatSymbol true s).signature ≠ none) ↔ ∃ d, s.detail = some d ∧ d ≠ "") ∧
        ((formatSymbol true s).signature ≠ none → (formatSymbol true s).signature = s.detail) ∧
        (formatSymbol true s).detail = none ∧
        (formatSymbol false s).detail = some s.detail) := by
  refine ⟨fun syms => rfl, ?_⟩
  intro s
  cases h : s.detail with
  | none =>
    simp [formatSymbol, truthyStr, h]
  | some d =>
    by_cases hd : d = ""
    · subst hd
      simp [formatSymbol, truthyStr, h]
    · simp [formatSymbol, truthyStr, h, hd]

/-! ## C5 — run-length counter characterisation of readiness -/

/-- Unfolding one attempt off the front of a result window. -/
theorem resultsFrom_succ (script : Nat → List Loc) (a u : Nat) (h : a ≤ u) :
    resultsFrom script a (u + 1 - a) = script a :: resultsFrom script (a + 1) (u - a) := by
  have h1 : u + 1 - a = (u - a) + 1 := by omega
  rw [h1]
  rfl

/-- Readiness at the very attempt the loop is about to make. -/
theorem readyG_self (script : Nat → List Loc) (counter a : Nat) :
    readyG script counter a a ↔
      (classifyReal (script a) = true ∨
        (3 ≤ (if classifyPlaceholder (script a) then 0 else counter + 1) ∧ 10 < a)) := by
  unfold readyG
  have h1 : a + 1 - a = 1 := by omega
  rw [h1]
  exact Iff.rfl

/-- Folding the current attempt's classification into the counter commutes
with advancing the loop start. -/
theorem readyG_shift (script : Nat → List Loc) (counter a u : Nat) (h : a + 1 ≤ u) :
    readyG script counter a u ↔
      readyG script (if classifyPlaceholder (script a) then 0 else counter + 1) (a + 1) u := by
  unfold readyG
  rw [resultsFrom_succ script a u (by omega)]
  have h2 : u + 1 - (a + 1) = u - a := by omega
  rw [h2]
  exact Iff.rfl

/-- A PLACEHOLDER attempt resets the counter to zero. -/
theorem readyG_shift_placeholder (script : Nat → List Loc) (counter a u : Nat)
    (hp : classifyPlaceholder (script a) = true) (h : a + 1 ≤ u) :
    readyG script counter a u ↔ readyG script 0 (a + 1) u := by
  rw [readyG_shift script counter a u h, hp]
  simp

/-- A non-PLACEHOLDER attempt increments the counter. -/
theorem readyG_shift_nonplaceholder (script : Nat → List Loc) (counter a u : Nat)
    (hp : classifyPlaceholder (script a) = false) (h : a + 1 ≤ u) :
    readyG script counter a u ↔ readyG script (counter + 1) (a + 1) u := by
  rw [readyG_shift script counter a u h, hp]
  simp

/-- The loop body declares readiness exactly at the least attempt satisfying
the generalised readiness predicate within the remaining fuel. -/
theorem waitFrom_ok_iff (script : Nat → List Loc) (n : Nat) :
    ∀ fuel attempt counter t,
      waitFrom script n fuel attempt counter = Except.ok t ↔
        (attempt ≤ t ∧ t < attempt + fuel ∧ readyG script counter attempt t ∧
          ∀ u, attempt ≤ u → u < t → ¬ readyG script counter attempt u) := by
  intro fuel
  induction fuel with
  | zero =>
    intro attempt counter t
    constructor
    · intro h
      simp [waitFrom] at h
    · rintro ⟨h1, h2, -, -⟩
      omega
  | succ m ih =>
    intro attempt counter t
    cases hsc : script attempt with
    | cons l rest =>
      by_cases hc : containsSub l.uri canonicalFingerprint = true
      · -- PLACEHOLDER: reset the counter and continue
        have hp : classifyPlaceholder (script attempt) = true := by
          simp [classifyPlaceholder, hsc, hc]
        have hstep : waitFrom script n (m + 1) attempt counter
            = waitFrom script n m (attempt + 1) 0 := by
          simp [waitFrom, hsc, hc]
        have hnot : ¬ readyG script counter attempt attempt := by
          rw [readyG_self]
          rintro (h | ⟨h3, -⟩)
          · simp [classifyReal, hsc, hc] at h
          · rw [hp] at h3
            simp at h3
        rw [hstep, ih (attempt + 1) 0 t]
        constructor
        · rintro ⟨h1, h2, h3, h4⟩
          refine ⟨by omega, by omega, ?_, ?_⟩
          · rw [readyG_shift_placeholder script counter attempt t hp (by omega)]
            exact h3
          · intro u hu1 hu2
            rcases Nat.eq_or_lt_of_le hu1 with he | hlt
            · rw [← he]
              exact hnot
            · rw [readyG_shift_placeholder script counter attempt u hp (by omega)]
              exact h4 u (by omega) hu2
        · rintro ⟨h1, h2, h3, h4⟩
          have hta : attempt ≠ t := by
            intro he
            exact hnot (by rwa [← he] at h3)
          refine ⟨by omega, by omega, ?_, ?_⟩
          · rw [← readyG_shift_placeholder script counter attempt t hp (by omega)]
            exact h3
          · intro u hu1 hu2
            rw [← readyG_shift_placeholder script counter attempt u hp hu1]
            exact h4 u (by omega) hu2
      · -- REAL: immediate success
        have hcf : containsSub l.uri canonicalFingerprint = false := by
          simpa using hc
        have hr : classifyReal (script attempt) = true := by
          simp [classifyReal, hsc, hcf]
        have hstep : waitFrom script n (m + 1) attempt counter = .ok attempt := by
          simp [waitFrom, hsc, hcf]
        have hready : readyG script counter attempt attempt := by
          rw [readyG_self]
          exact Or.inl hr
        rw [hstep]
        constructor
        · intro h
          have ht : attempt = t := by
            simpa using h
          subst ht
          exact ⟨le_rfl, by omega, hready,
            fun u hu1 hu2 => absurd (Nat.lt_of_le_of_lt hu1 hu2) (Nat.lt_irrefl attempt)⟩
        · rintro ⟨h1, h2, h3, h4⟩
          have ht : t = attempt := by
            by_contra hne
            exact h4 attempt le_rfl (by omega) hready
          rw [ht]
    | nil =>
      have hpf : classifyPlaceholder (script attempt) = false := by
        simp [classifyPlaceholder, hsc]
      by_cases hcond : 3 ≤ counter + 1 ∧ 10 < attempt
      · -- EMPTY attempt completing the run-length criterion
        have hstep : waitFrom script n (m + 1) attempt counter = .ok attempt := by
          simp [waitFrom, hsc, hcond]
        have hready : readyG script counter attempt attempt := by
          rw [readyG_self, hpf]
          simp
          omega
        rw [hstep]
        constructor
        · intro h
          have ht : attempt = t := by
            simpa using h
          subst ht
          exact ⟨le_rfl, by omega, hready,
            fun u hu1 hu2 => absurd (Nat.lt_of_le_of_lt hu1 hu2) (Nat.lt_irrefl attempt)⟩
        · rintro ⟨h1, h2, h3, h4⟩
          have ht : t = attempt := by
            by_contra hne
            exact h4 attempt le_rfl (by omega) hready
          rw [ht]
      · -- EMPTY attempt, criterion not yet met: increment and continue
        have hstep : waitFrom script n (m + 1) attempt counter
            = waitFrom script n m (attempt + 1) (counter + 1) := by
          simp only [waitFrom, hsc]
          rw [if_neg hcond]
        have hnot : ¬ readyG script counter attempt attempt := by
          rw [readyG_self]
          rintro (h | ⟨h3, h4⟩)
          · simp [classifyReal, hsc] at h
          · rw [hpf] at h3
            simp at h3
            exact hcond ⟨by omega, h4⟩
        rw [hstep, ih (attempt + 1) (counter + 1) t]
        constructor
        · rintro ⟨h1, h2, h3, h4⟩
          refine ⟨by omega, by omega, ?_, ?_⟩
          · rw [readyG_shift_nonplaceholder script counter attempt t hpf (by omega)]
            exact h3
          · intro u hu1 hu2
            rcases Nat.eq_or_lt_of_le hu1 with he | hlt
            · rw [← he]
              exact hnot
            · rw [readyG_shift_nonplaceholder script counter attempt u hpf (by omega)]
              exact h4 u (by omega) hu2
        · rintro ⟨h1, h2, h3, h4⟩
          have hta : attempt ≠ t := by
            intro he
            exact hnot (by rwa [← he] at h3)
          refine ⟨by omega, by omega, ?_, ?_⟩
          · rw [← readyG_shift_nonplaceholder script counter attempt t hpf (by omega)]
            exact h3
          · intro u hu1 hu2
            rw [← readyG_shift_nonplaceholder script counter attempt u hpf hu1]
            exact h4 u (by omega) hu2

/-- C5: the detector's loop is equivalent to the spec's description — it
maintains a run-length counter of consecutive non-PLACEHOLDER (EMPTY or
REAL) classifications, reset to zero by any PLACEHOLDER result, and declares
readiness at exactly the first attempt that is REAL or at which the counter
has reached the minimum consecutive threshold 3 with the total attempt count
beyond the minimum 10, within the attempt budget. -/
theorem readiness_counter_characterization :
    ∀ (script : Nat → List Loc) (n t : Nat),
      waitForRealProjectLoad script n = .ok t ↔
        (1 ≤ t ∧ t ≤ n ∧ specReadyAt script t ∧
          ∀ u, 1 ≤ u → u < t → ¬ specReadyAt script u) := by
  intro script n t
  rw [waitForRealProjectLoad, waitFrom_ok_iff script n n 1 0 t]
  constructor
  · rintro ⟨h1, h2, h3, h4⟩
    exact ⟨h1, by omega, h3, h4⟩
  · rintro ⟨h1, h2, h3, h4⟩
    exact ⟨h1, by omega, h3, h4⟩

/-! ## Transport lemmas: anchored matches and first occurrences -/

/-- A pattern matches at the front of itself followed by anything. -/
theorem isPre_self_append (p r : List Char) : isPre p (p ++ r) = true := by
  induction p with
  | nil => rfl
  | cons a as ih => simp [isPre, ih]

/-- A successful anchored match needs at least the pattern's length. -/
theorem isPre_length {p l : List Char} (h : isPre p l = true) : p.length ≤ l.length := by
  induction p generalizing l with
  | nil => simp
  | cons a as ih =>
    cases l with
    | nil => simp [isPre] at h
    | cons b bs =>
      simp only [isPre, Bool.and_eq_true] at h
      have := ih h.2
      simp [List.length_cons]
      omega

/-- Extending the text to the right preserves an anchored match. -/
theorem isPre_append_right {p a : List Char} (b : List Char) (h : isPre p a = true) :
    isPre p (a ++ b) = true := by
  induction p generalizing a with
  | nil => rfl
  | cons c cs ih =>
    cases a with
    | nil => simp [isPre] at h
    | cons d ds =>
      simp only [isPre, Bool.and_eq_true] at h
      simp only [List.cons_append, isPre, Bool.and_eq_true]
      exact ⟨h.1, ih h.2⟩

/-- An anchored match that fits inside the left part of an append already
matches there. -/
theorem isPre_append_left_of_length {p a : List Char} (b : List Char)
    (h : isPre p (a ++ b) = true) (hlen : p.length ≤ a.length) : isPre p a = true := by
  induction p generalizing a with
  | nil => rfl
  | cons c cs ih =>
    cases a with
    | nil => simp at hlen
    | cons d ds =>
      simp only [List.cons_append, isPre, Bool.and_eq_true] at h
      simp only [isPre, Bool.and_eq_true]
      refine ⟨h.1, ih h.2 ?_⟩
      simp at hlen
      omega

/-- A match of a pattern beginning with `c` forces the text to begin with
`c`. -/
theorem isPre_head {c : Char} {p l : List Char} (h : isPre (c :: p) l = true) :
    ∃ tl, l = c :: tl := by
  cases l with
  | nil => simp [isPre] at h
  | cons d ds =>
    simp only [isPre, Bool.and_eq_true, decide_eq_true_eq] at h
    exact ⟨ds, by rw [h.1]⟩

/-- `findSub` finds an occurrence that is minimal. -/
theorem findSub_some_intro {l pat : List Char} (hne : pat ≠ []) {k : Nat}
    (hocc : isPre pat (l.drop k) = true)
    (hmin : ∀ i, i < k → isPre pat (l.drop i) = false) :
    findSub l pat = some k := by
  induction l generalizing k with
  | nil =>
    exfalso
    cases pat with
    | nil => exact hne rfl
    | cons c cs => simp [List.drop_nil, isPre] at hocc
  | cons c tl ih =>
    cases k with
    | zero =>
      simp only [findSub]
      rw [if_pos (by simpa using hocc)]
    | succ j =>
      have h0 : isPre pat (c :: tl) = false := by
        have := hmin 0 (by omega)
        simpa using this
      simp only [findSub]
      rw [if_neg (by simp [h0])]
      have hrec : findSub tl pat = some j :=
        ih (k := j) (by simpa using hocc)
          (fun i hi => by simpa using hmin (i + 1) (by omega))
      rw [hrec]
      rfl

/-- Conversely, a successful `findSub` yields a minimal occurrence. -/
theorem findSub_some_elim {l pat : List Char} {k : Nat}
    (h : findSub l pat = some k) :
    isPre pat (l.drop k) = true ∧ ∀ i, i < k → isPre pat (l.drop i) = false := by
  induction l generalizing k with
  | nil =>
    simp only [findSub] at h
    by_cases hp : isPre pat [] = true
    · rw [if_pos hp] at h
      have hk : k = 0 := by simpa using h.symm
      subst hk
      exact ⟨hp, fun i hi => absurd hi (by omega)⟩
    · rw [if_neg hp] at h
      exact absurd h (by simp)
  | cons c tl ih =>
    simp only [findSub] at h
    by_cases hp : isPre pat (c :: tl) = true
    · rw [if_pos hp] at h
      have hk : k = 0 := by simpa using h.symm
      subst hk
      exact ⟨hp, fun i hi => absurd hi (by omega)⟩
    · rw [if_neg hp] at h
      rcases Option.map_eq_some'.mp h with ⟨j, hj, hkj⟩
      rcases ih hj with ⟨hocc, hmin⟩
      subst hkj
      constructor
      · simpa using hocc
      · intro i hi
        cases i with
        | zero =>
          simpa using (Bool.not_eq_true _).mp hp
        | succ i' =>
          simpa using hmin i' (by omega)

/-- When no position matches, `findSub` reports no occurrence. -/
theorem findSub_none_intro {l pat : List Char}
    (h : ∀ i, isPre pat (l.drop i) = false) : findSub l pat = none := by
  induction l with
  | nil =>
    simp only [findSub]
    rw [if_neg (by simp only [Bool.not_eq_true]; simpa using h 0)]
  | cons c tl ih =>
    simp only [findSub]
    rw [if_neg (by simp only [Bool.not_eq_true]; simpa using h 0)]
    rw [ih (fun i => by simpa using h (i + 1))]
    rfl

/-- No "\r\n\r\n" can start at a position holding a character other than
carriage return. -/
theorem isPre_crlf2_false_of_get (l : List Char) (i : Nat) (hi : i < l.length)
    (hc : l.get ⟨i, hi⟩ ≠ '\r') : isPre crlf2 (l.drop i) = false := by
  cases hb : isPre crlf2 (l.drop i) with
  | false => rfl
  | true =>
    exfalso
    rcases isPre_head (p := ['\n', '\r', '\n']) hb with ⟨tl, htl⟩
    have hd : l.drop i = l.get ⟨i, hi⟩ :: l.drop (i + 1) :=
      List.drop_eq_getElem_cons hi
    rw [htl] at hd
    exact hc (by injection hd with h1 h2; exact h1.symm)

/-! ## Decimal header interpolation -/

/-- The code of a digit character. -/
theorem digitChar_toNat (n : Nat) : (digitChar n).toNat = 48 + n % 10 := by
  unfold digitChar
  have h : n % 10 < 10 := Nat.mod_lt _ (by omega)
  set m := n % 10 with hm
  interval_cases m <;> decide

/-- A digit character is a digit. -/
theorem digitChar_isDigit (d : Nat) : (digitChar d).isDigit = true := by
  unfold digitChar
  have h : d % 10 < 10 := Nat.mod_lt _ (by omega)
  set m := d % 10 with hm
  interval_cases m <;> decide

/-- The fueled decimal printer ignores the fuel once it dominates the
argument. -/
theorem natDigitsAux_fuelIrrel (n : Nat) : ∀ f1 f2, n < f1 → n < f2 →
    natDigitsAux f1 n = natDigitsAux f2 n := by
  induction n using Nat.strong_induction_on with
  | _ n ih =>
    intro f1 f2 h1 h2
    cases f1 with
    | zero => omega
    | succ a =>
      cases f2 with
      | zero => omega
      | succ b =>
        simp only [natDigitsAux]
        by_cases hn : n < 10
        · rw [if_pos hn, if_pos hn]
        · rw [if_neg hn, if_neg hn]
          have hd : n / 10 < n := Nat.div_lt_self (by omega) (by omega)
          rw [ih (n / 10) hd a b (by omega) (by omega)]

/-- Every character of a printed number is a digit character. -/
theorem natDigits_all_digitChar : ∀ n c, c ∈ natDigits n → ∃ d, d < 10 ∧ c = digitChar d := by
  intro n
  induction n using Nat.strong_induction_on with
  | _ n ih =>
    intro c hc
    unfold natDigits at hc
    simp only [natDigitsAux] at hc
    by_cases hn : n < 10
    · rw [if_pos hn] at hc
      simp at hc
      exact ⟨n, hn, hc⟩
    · rw [if_neg hn] at hc
      have hd : n / 10 < n := Nat.div_lt_self (by omega) (by omega)
      rcases List.mem_append.mp hc with hl | hr
      · rw [natDigitsAux_fuelIrrel (n / 10) n (n / 10 + 1) (by omega) (by omega)] at hl
        exact ih (n / 10) hd c hl
      · have hc10 : n % 10 < 10 := Nat.mod_lt _ (by omega)
        simp at hr
        exact ⟨n % 10, hc10, hr⟩

/-- The printed number is never empty. -/
theorem natDigits_ne_nil (n : Nat) : natDigits n ≠ [] := by
  unfold natDigits
  simp only [natDigitsAux]
  by_cases hn : n < 10
  · rw [if_pos hn]
    simp
  · rw [if_neg hn]
    simp

/-- The printed digits are ASCII, digits, and never a carriage return. -/
theorem natDigits_char_facts (n : Nat) :
    ∀ c ∈ natDigits n, c.isDigit = true ∧ c.toNat < 128 ∧ c ≠ '\r' := by
  intro c hc
  rcases natDigits_all_digitChar n c hc with ⟨d, hd, hcd⟩
  subst hcd
  have ht := digitChar_toNat d
  refine ⟨digitChar_isDigit d, by omega, ?_⟩
  intro he
  have : (digitChar d).toNat = 13 := by rw [he]; rfl
  omega

/-- Reading back the tail digit of a decimal print. -/
theorem digitsToNat_append_singleton (xs : List Char) (c : Char) :
    digitsToNat (xs ++ [c]) = 10 * digitsToNat xs + (c.toNat - 48) := by
  unfold digitsToNat
  rw [List.foldl_append]
  rfl

/-- Parsing the decimal print of `n` recovers `n` (soundness of the
Content-Length header/`parseInt` pair). -/
theorem natDigits_roundtrip : ∀ n, digitsToNat (natDigits n) = n := by
  intro n
  induction n using Nat.strong_induction_on with
  | _ n ih =>
    show digitsToNat (natDigitsAux (n + 1) n) = n
    simp only [natDigitsAux]
    by_cases hn : n < 10
    · rw [if_pos hn]
      have h := digitChar_toNat n
      simp [digitsToNat]
      omega
    · rw [if_neg hn]
      have hd : n / 10 < n := Nat.div_lt_self (by omega) (by omega)
      rw [natDigitsAux_fuelIrrel (n / 10) n (n / 10 + 1) (by omega) (by omega)]
      rw [digitsToNat_append_singleton]
      have h3 : digitsToNat (natDigitsAux (n / 10 + 1) (n / 10)) = n / 10 := ih (n / 10) hd
      rw [h3, digitChar_toNat]
      omega

/-- A predicate true on every element lets `takeWhile` keep the whole
list. -/
theorem takeWhile_all {p : Char → Bool} : ∀ l : List Char,
    (∀ c ∈ l, p c = true) → l.takeWhile p = l := by
  intro l h
  induction l with
  | nil => rfl
  | cons c tl ih =>
    rw [List.takeWhile_cons, if_pos (h c (by simp))]
    rw [ih (fun x hx => h x (by simp [hx]))]

/-- For ASCII text, the UTF-8 byte count coincides with the UTF-16 unit
count: the root cause of the transport bug is exactly the failure of this
identity beyond ASCII. -/
theorem utf8Len_ascii : ∀ l : List Char, (∀ c ∈ l, c.toNat < 128) →
    utf8Len l = l.length := by
  intro l h
  induction l with
  | nil => rfl
  | cons c tl ih =>
    have hc : c.toNat < 128 := h c (by simp)
    simp only [utf8Len, List.map_cons, List.sum_cons, charUtf8Size, if_pos hc,
      List.length_cons]
    have := ih (fun x hx => h x (by simp [hx]))
    simp only [utf8Len] at this
    omega

/-- The literal "Content-Length: " contains no carriage return and is
nonempty. -/
theorem clPat_facts : (∀ c ∈ clPat, c ≠ '\r') ∧ clPat ≠ [] ∧ clPat.length = 16 := by
  decide

/-! ## Frame structure -/

/-- The header regex applied to a well-formed header line recovers the
announced byte count. -/
theorem findCL_header (m : Nat) : findCL (clPat ++ natDigits m) = some m := by
  have hne : clPat ++ natDigits m ≠ [] := by
    intro he
    exact clPat_facts.2.1 (List.append_eq_nil.mp he).1
  obtain ⟨c, tl, hh⟩ := List.exists_cons_of_ne_nil hne
  rw [hh]
  simp only [findCL]
  rw [← hh]
  rw [if_pos (isPre_self_append clPat (natDigits m))]
  rw [List.drop_left]
  rw [takeWhile_all (natDigits m) (fun x hx => (natDigits_char_facts m x hx).1)]
  rw [if_neg (by simpa [List.isEmpty_iff] using natDigits_ne_nil m)]
  rw [natDigits_roundtrip]

/-- No separator can start inside a CR-free left part of an append. -/
theorem isPre_crlf2_false_append (A B : List Char) (hA : ∀ c ∈ A, c ≠ '\r')
    (i : Nat) (hi : i < A.length) : isPre crlf2 ((A ++ B).drop i) = false := by
  have hlen : i < (A ++ B).length := by
    simp only [List.length_append]
    omega
  apply isPre_crlf2_false_of_get _ i hlen
  have hg : (A ++ B).get ⟨i, hlen⟩ = A.get ⟨i, hi⟩ := by
    simp [List.get_eq_getElem, List.getElem_append_left hi]
  rw [hg]
  exact hA _ (A.get_mem i hi)

/-- First occurrence of the separator after a CR-free prefix. -/
theorem findSub_crlf2_append (A B : List Char) (hA : ∀ c ∈ A, c ≠ '\r') :
    findSub (A ++ (crlf2 ++ B)) crlf2 = some A.length := by
  apply findSub_some_intro (by decide)
  · rw [List.drop_left]
    exact isPre_self_append crlf2 B
  · intro i hi
    exact isPre_crlf2_false_append A (crlf2 ++ B) hA i hi

/-- Draining an empty buffer does nothing at any fuel. -/
theorem drainAux_nil (f : Nat) : drainAux f [] = ([], []) := by
  cases f <;> rfl

/-- The drain loop's fuel is irrelevant once it reaches the buffer length
(each iteration consumes at least four characters). -/
theorem drainAux_congr_fuel : ∀ (N : Nat) (buf : List Char), buf.length ≤ N →
    ∀ f1 f2, buf.length ≤ f1 → buf.length ≤ f2 →
      drainAux f1 buf = drainAux f2 buf := by
  intro N
  induction N with
  | zero =>
    intro buf hN f1 f2 h1 h2
    have hb : buf = [] := List.length_eq_zero.mp (by omega)
    subst hb
    rw [drainAux_nil, drainAux_nil]
  | succ M ih =>
    intro buf hN f1 f2 h1 h2
    cases f1 with
    | zero =>
      have hb : buf = [] := List.length_eq_zero.mp (by omega)
      subst hb
      rw [drainAux_nil, drainAux_nil]
    | succ a =>
      cases f2 with
      | zero =>
        have hb : buf = [] := List.length_eq_zero.mp (by omega)
        subst hb
        rw [drainAux_nil, drainAux_nil]
      | succ b =>
        simp only [drainAux]
        cases hfs : findSub buf crlf2 with
        | none => rfl
        | some k =>
          cases hcl : findCL (buf.take k) with
          | none => simp only [hcl]
          | some cl =>
            simp only [hcl]
            by_cases hlt : buf.length < k + 4 + cl
            · rw [if_pos hlt, if_pos hlt]
            · rw [if_neg hlt, if_neg hlt]
              have hrl : (buf.drop (k + 4 + cl)).length = buf.length - (k + 4 + cl) :=
                List.length_drop _ _
              rw [ih (buf.drop (k + 4 + cl)) (by omega) a b (by omega) (by omega)]

/-- Popping one complete well-formed frame (CR-free ASCII body) off the head
of the stream: the body is emitted and draining continues on the
remainder. -/
theorem drainAux_popFrame (content rest : List Char)
    (hA : ∀ c ∈ content, c.toNat < 128)
    (fuel : Nat) (hfuel : (encodeFrame content ++ rest).length ≤ fuel) :
    drainAux fuel (encodeFrame content ++ rest)
      = (content :: (drainAux rest.length rest).1, (drainAux rest.length rest).2) := by
  have hn : utf8Len content = content.length := utf8Len_ascii content hA
  have hhdrCR : ∀ c ∈ clPat ++ natDigits (utf8Len content), c ≠ '\r' := by
    intro c hc
    rcases List.mem_append.mp hc with h | h
    · exact clPat_facts.1 c h
    · exact (natDigits_char_facts _ c h).2.2
  have hEq : encodeFrame content ++ rest
      = (clPat ++ natDigits (utf8Len content)) ++ (crlf2 ++ (content ++ rest)) := by
    simp [encodeFrame, List.append_assoc]
  have hEq2 : (clPat ++ natDigits (utf8Len content)) ++ (crlf2 ++ (content ++ rest))
      = (((clPat ++ natDigits (utf8Len content)) ++ crlf2) ++ content) ++ rest := by
    simp [List.append_assoc]
  have hc4 : crlf2.length = 4 := rfl
  have hcl16 : clPat.length = 16 := clPat_facts.2.2
  have hlen : (encodeFrame content ++ rest).length
      = (clPat ++ natDigits (utf8Len content)).length + 4 + content.length + rest.length := by
    rw [hEq]
    simp only [List.length_append]
    omega
  cases fuel with
  | zero =>
    exfalso
    have : 16 ≤ (clPat ++ natDigits (utf8Len content)).length := by
      simp only [List.length_append]
      omega
    omega
  | succ m =>
    rw [hEq] at hfuel ⊢
    have h1 : findSub ((clPat ++ natDigits (utf8Len content)) ++ (crlf2 ++ (content ++ rest)))
        crlf2 = some (clPat ++ natDigits (utf8Len content)).length :=
      findSub_crlf2_append _ _ hhdrCR
    have h2 : ((clPat ++ natDigits (utf8Len content)) ++ (crlf2 ++ (content ++ rest))).take
        (clPat ++ natDigits (utf8Len content)).length = clPat ++ natDigits (utf8Len content) :=
      List.take_left _ _
    have h3 : findCL (clPat ++ natDigits (utf8Len content)) = some (utf8Len content) :=
      findCL_header (utf8Len content)
    have hL1 : (((clPat ++ natDigits (utf8Len content)) ++ crlf2) ++ content).length
        = (clPat ++ natDigits (utf8Len content)).length + 4 + utf8Len content := by
      simp only [List.length_append]
      omega
    have hL2 : ((clPat ++ natDigits (utf8Len content)) ++ crlf2).length
        = (clPat ++ natDigits (utf8Len content)).length + 4 := by
      simp only [List.length_append]
      omega
    have h4 : ¬ (((clPat ++ natDigits (utf8Len content)) ++ (crlf2 ++ (content ++ rest))).length
        < (clPat ++ natDigits (utf8Len content)).length + 4 + utf8Len content) := by
      simp only [List.length_append]
      omega
    have h5 : (((clPat ++ natDigits (utf8Len content)) ++ (crlf2 ++ (content ++ rest))).take
          ((clPat ++ natDigits (utf8Len content)).length + 4 + utf8Len content)).drop
          ((clPat ++ natDigits (utf8Len content)).length + 4) = content := by
      rw [hEq2, List.take_left' hL1, List.drop_left' hL2]
    have h6 : ((clPat ++ natDigits (utf8Len content)) ++ (crlf2 ++ (content ++ rest))).drop
        ((clPat ++ natDigits (utf8Len content)).length + 4 + utf8Len content) = rest := by
      rw [hEq2, List.drop_left' hL1]
    have hm : rest.length ≤ m := by
      rw [hEq] at hlen
      simp only [List.length_append] at hlen hfuel
      omega
    simp only [drainAux, h1, h2, h3]
    rw [if_neg h4]
    simp only [h5, h6]
    rw [drainAux_congr_fuel rest.length rest le_rfl m rest.length hm le_rfl]

/-- A proper prefix of a single well-formed ASCII frame is left untouched by
the drain loop: either the separator has not fully arrived, or the announced
body length exceeds what is buffered, so the decoder waits for more data. -/
theorem drainAux_prefix_stuck (content : List Char)
    (hA : ∀ c ∈ content, c.toNat < 128) (k : Nat)
    (hk : k < (encodeFrame content).length) (fuel : Nat) :
    drainAux fuel ((encodeFrame content).take k)
      = ([], (encodeFrame content).take k) := by
  cases fuel with
  | zero => rfl
  | succ m =>
    have hn : utf8Len content = content.length := utf8Len_ascii content hA
    have hc4 : crlf2.length = 4 := rfl
    have hcl16 : clPat.length = 16 := clPat_facts.2.2
    have hhdrCR : ∀ c ∈ clPat ++ natDigits (utf8Len content), c ≠ '\r' := by
      intro c hc
      rcases List.mem_append.mp hc with h | h
      · exact clPat_facts.1 c h
      · exact (natDigits_char_facts _ c h).2.2
    have hEq : encodeFrame content
        = (clPat ++ natDigits (utf8Len content)) ++ (crlf2 ++ content) := by
      simp [encodeFrame, List.append_assoc]
    have hFlen : (encodeFrame content).length
        = (clPat ++ natDigits (utf8Len content)).length + 4 + content.length := by
      rw [hEq]
      simp only [List.length_append]
      omega
    by_cases hcase : k < (clPat ++ natDigits (utf8Len content)).length + 4
    · -- the separator has not fully arrived: no occurrence in the prefix
      have hfs : findSub ((encodeFrame content).take k) crlf2 = none := by
        apply findSub_none_intro
        intro i
        by_cases hi4 : i + 4 ≤ k
        · have hihdr : i < (clPat ++ natDigits (utf8Len content)).length := by omega
          have hsplit : (encodeFrame content).take k
              = ((clPat ++ natDigits (utf8Len content)).take k)
                ++ ((crlf2 ++ content).take (k - (clPat ++ natDigits (utf8Len content)).length)) := by
            rw [hEq, List.take_append_eq_append_take]
          rw [hsplit]
          apply isPre_crlf2_false_append
          · intro c hc
            exact hhdrCR c (List.take_subset k _ hc)
          · rw [List.length_take]
            omega
        · cases hb : isPre crlf2 (((encodeFrame content).take k).drop i) with
          | false => rfl
          | true =>
            exfalso
            have hlb := isPre_length hb
            rw [List.length_drop, List.length_take] at hlb
            rw [hc4] at hlb
            omega
      simp only [drainAux, hfs]
    · -- full header buffered, but the announced body exceeds the buffer
      push_neg at hcase
      have hp : (encodeFrame content).take k
          = (clPat ++ natDigits (utf8Len content))
            ++ (crlf2 ++ content.take (k - (clPat ++ natDigits (utf8Len content)).length - 4)) := by
        rw [hEq]
        rw [List.take_append_eq_append_take]
        rw [List.take_of_length_le (by omega)]
        congr 1
        rw [List.take_append_eq_append_take]
        rw [List.take_of_length_le (by rw [hc4]; omega)]
        rw [hc4]
      have hfs : findSub ((encodeFrame content).take k) crlf2
          = some (clPat ++ natDigits (utf8Len content)).length := by
        rw [hp]
        exact findSub_crlf2_append _ _ hhdrCR
      have h2 : ((encodeFrame content).take k).take
          (clPat ++ natDigits (utf8Len content)).length
          = clPat ++ natDigits (utf8Len content) := by
        rw [hp]
        exact List.take_left _ _
      have h3 : findCL (clPat ++ natDigits (utf8Len content)) = some (utf8Len content) :=
        findCL_header (utf8Len content)
      have hlt : ((encodeFrame content).take k).length
          < (clPat ++ natDigits (utf8Len content)).length + 4 + utf8Len content := by
        rw [List.length_take]
        omega
      simp only [drainAux, hfs, h2, h3]
      rw [if_pos hlt]

/-! ## Chunked arrival of one frame -/

/-- Feeding only empty chunks decodes nothing. -/
theorem processChunks_flatten_nil : ∀ chunks : List (List Char), chunks.flatten = [] →
    processChunks [] chunks = ([], []) := by
  intro chunks
  induction chunks with
  | nil =>
    intro h
    rfl
  | cons c cs ih =>
    intro h
    have h2 : c ++ cs.flatten = [] := h
    rcases List.append_eq_nil.mp h2 with ⟨hc, hcs⟩
    subst hc
    simp only [processChunks]
    rw [show handleData [] [] = ([], []) from rfl]
    rw [ih hcs]
    rfl

/-- Delivering the rest of a partially buffered ASCII frame across any
further chunk boundaries decodes exactly the frame's body. -/
theorem processChunks_frameFront (content : List Char)
    (hA : ∀ c ∈ content, c.toNat < 128) :
    ∀ (chunks : List (List Char)) (k : Nat), k < (encodeFrame content).length →
      (encodeFrame content).take k ++ chunks.flatten = encodeFrame content →
      processChunks ((encodeFrame content).take k) chunks = ([content], []) := by
  intro chunks
  induction chunks with
  | nil =>
    intro k hk hj
    exfalso
    have hj2 : (encodeFrame content).take k = encodeFrame content := by
      simpa using hj
    have hlen := congrArg List.length hj2
    rw [List.length_take] at hlen
    omega
  | cons c cs ih =>
    intro k hk hj
    have hjoin : (encodeFrame content).take k ++ (c ++ cs.flatten)
        = encodeFrame content := hj
    have h1 : ((encodeFrame content).take k ++ c) ++ cs.flatten
        = encodeFrame content := by
      rw [List.append_assoc]
      exact hjoin
    have hlenk : ((encodeFrame content).take k).length = k := by
      rw [List.length_take]
      omega
    have hk' : k + c.length ≤ (encodeFrame content).length := by
      have hl := congrArg List.length h1
      simp only [List.length_append] at hl
      omega
    have hl2 : ((encodeFrame content).take k ++ c).length = k + c.length := by
      simp only [List.length_append, hlenk]
    have hpre : (encodeFrame content).take (k + c.length)
        = (encodeFrame content).take k ++ c := by
      conv_lhs => rw [← h1]
      rw [List.take_append_eq_append_take]
      rw [List.take_of_length_le (le_of_eq hl2), hl2, Nat.sub_self, List.take_zero,
        List.append_nil]
    have hbuf : handleData ((encodeFrame content).take k) c
        = drainAux ((encodeFrame content).take (k + c.length)).length
            ((encodeFrame content).take (k + c.length)) := by
      unfold handleData
      rw [← hpre]
    simp only [processChunks]
    rcases Nat.lt_or_ge (k + c.length) (encodeFrame content).length with hlt | hge
    · rw [hbuf, drainAux_prefix_stuck content hA (k + c.length) hlt]
      have hjj : (encodeFrame content).take (k + c.length) ++ cs.flatten
          = encodeFrame content := by
        rw [hpre]
        exact h1
      rw [ih (k + c.length) hlt hjj]
      rfl
    · have heq : k + c.length = (encodeFrame content).length := by omega
      have hfull : (encodeFrame content).take (k + c.length) = encodeFrame content := by
        rw [heq]
        exact List.take_length _
      have hpop : drainAux (encodeFrame content).length (encodeFrame content)
          = ([content], []) := by
        have hp := drainAux_popFrame content [] hA (encodeFrame content).length (by simp)
        simpa [drainAux_nil] using hp
      rw [hbuf, hfull, hpop]
      have hcs : cs.flatten = [] := by
        rw [← hpre, hfull] at h1
        have hl := congrArg List.length h1
        simp only [List.length_append] at hl
        exact List.length_eq_zero.mp (by omega)
      rw [processChunks_flatten_nil cs hcs]
      rfl

/-! ## C2 — frame round-trip and chunk invariance -/

/-- C2 counterexample: the frame of the three-character JSON body `"é"`
announces 4 body bytes, but the decoder counts UTF-16 units, so feeding the
complete frame (in one piece, no split at all) decodes zero messages instead
of exactly one and leaves the buffer stuck — refuting the claim for
non-ASCII bodies. -/
theorem frame_roundtrip_nonascii_counterexample :
    utf8Len accentBody = 4 ∧ accentBody.length = 3 ∧
    processChunks [] [encodeFrame accentBody] = ([], encodeFrame accentBody) := by
  refine ⟨rfl, rfl, ?_⟩
  rfl

/-- C2 amended: for a message whose serialized body is ASCII (where the
UTF-8 byte count announced in the header equals the UTF-16 unit count used
by the decoder), encoding and then feeding the frame split across arbitrarily
many chunks at arbitrary boundaries yields exactly the original body, once,
with an empty buffer left over; for a non-ASCII body the decoder never
completes the frame. -/
theorem frame_roundtrip_chunked_ascii :
    ∀ (content : List Char) (chunks : List (List Char)),
      (∀ c ∈ content, c.toNat < 128) →
      chunks.flatten = encodeFrame content →
      processChunks [] chunks = ([content], []) := by
  intro content chunks hA hj
  have h0 : 0 < (encodeFrame content).length := by
    have h16 := clPat_facts.2.2
    simp only [encodeFrame, List.length_append]
    omega
  show processChunks ((encodeFrame content).take 0) chunks = ([content], [])
  exact processChunks_frameFront content hA chunks 0 h0 (by simpa using hj)

/-- Witness for the amended C2 with the body "ok" split across four chunks,
one boundary inside the header and one inside the body. -/
theorem frame_roundtrip_chunked_ascii_witness :
    (∀ c ∈ asciiBody, c.toNat < 128) ∧
    ([("Content-Le").toList, ("ngth: 4\r\n\r").toList, ("\n\"o").toList,
        ("k\"").toList].flatten = encodeFrame asciiBody) ∧
    processChunks [] [("Content-Le").toList, ("ngth: 4\r\n\r").toList,
        ("\n\"o").toList, ("k\"").toList] = ([asciiBody], []) :=
  ⟨by decide, by decide,
   frame_roundtrip_chunked_ascii asciiBody _ (by decide) (by decide)⟩

/-! ## C6 — corrupt frames -/

/-- C6 counterexample: a header block carrying no Content-Length followed by
a perfectly well-formed frame decodes nothing — the loop breaks without
discarding, so the subsequent good frame is never decoded or dispatched,
refuting the claim that the decoder discards up to a recoverable point and
continues. -/
theorem corrupt_header_stalls_counterexample :
    processChunks [] [badHeaderBlock ++ encodeFrame asciiBody]
      = ([], badHeaderBlock ++ encodeFrame asciiBody) := by
  rfl

/-- C6 amended: the decoder never raises, and the two corrupt-frame cases
behave differently — a frame whose body is not valid JSON (any ASCII body
text at all) is still sliced off the buffer (`JSON.parse` failure is caught
and logged), so a following well-formed frame is decoded; but an inbound
header block with no parsable Content-Length stops the loop without
discarding anything, so nothing in that stream — including later well-formed
frames — is ever decoded. -/
theorem corrupt_frame_recovery_behavior :
    (∀ b1 b2 : List Char,
       (∀ c ∈ b1, c.toNat < 128) → (∀ c ∈ b2, c.toNat < 128) →
       processChunks [] [encodeFrame b1 ++ encodeFrame b2] = ([b1, b2], [])) ∧
    (∀ (bad rest : List Char) (k : Nat),
       findSub bad crlf2 = some k → findCL (bad.take k) = none →
       processChunks [] [bad ++ rest] = ([], bad ++ rest)) := by
  constructor
  · intro b1 b2 h1 h2
    simp only [processChunks]
    have hh : handleData [] (encodeFrame b1 ++ encodeFrame b2)
        = drainAux (encodeFrame b1 ++ encodeFrame b2).length
            (encodeFrame b1 ++ encodeFrame b2) := rfl
    rw [hh]
    rw [drainAux_popFrame b1 (encodeFrame b2) h1 _ le_rfl]
    have hpop2 : drainAux (encodeFrame b2).length (encodeFrame b2) = ([b2], []) := by
      have hp := drainAux_popFrame b2 [] h2 (encodeFrame b2).length (by simp)
      simpa [drainAux_nil] using hp
    rw [hpop2]
    rfl
  · intro bad rest k hfs hcl
    have hocc := (findSub_some_elim hfs).1
    have hmin := (findSub_some_elim hfs).2
    have hc4 : crlf2.length = 4 := rfl
    have hk4 : k + 4 ≤ bad.length := by
      have hl := isPre_length hocc
      rw [List.length_drop, hc4] at hl
      by_cases hkb : k ≤ bad.length
      · omega
      · exfalso
        have hdrop : bad.drop k = [] := List.drop_eq_nil_of_le (by omega)
        rw [hdrop] at hocc
        simp [isPre, crlf2] at hocc
    have hf1 : findSub (bad ++ rest) crlf2 = some k := by
      apply findSub_some_intro (by decide)
      · rw [List.drop_append_eq_append_drop, Nat.sub_eq_zero_of_le (by omega),
          List.drop_zero]
        exact isPre_append_right rest hocc
      · intro i hi
        cases hb : isPre crlf2 ((bad ++ rest).drop i) with
        | false => rfl
        | true =>
          exfalso
          rw [List.drop_append_eq_append_drop, Nat.sub_eq_zero_of_le (by omega),
            List.drop_zero] at hb
          have hib : isPre crlf2 (bad.drop i) = true := by
            apply isPre_append_left_of_length rest hb
            rw [List.length_drop, hc4]
            omega
          rw [hmin i hi] at hib
          exact Bool.false_ne_true hib
    have hf2 : (bad ++ rest).take k = bad.take k := by
      rw [List.take_append_eq_append_take, Nat.sub_eq_zero_of_le (by omega),
        List.take_zero, List.append_nil]
    simp only [processChunks]
    have hh : handleData [] (bad ++ rest)
        = drainAux (bad ++ rest).length (bad ++ rest) := rfl
    rw [hh]
    obtain ⟨M, hM⟩ : ∃ M, (bad ++ rest).length = M + 1 := by
      refine ⟨(bad ++ rest).length - 1, ?_⟩
      simp only [List.length_append]
      omega
    rw [hM]
    simp only [drainAux, hf1, hf2, hcl]
    rfl

/-- Witness for the amended C6: a frame with the non-JSON body "not json"
followed by a good frame both decode (recovery after an invalid body), while
a Content-Length-less header block followed by the same good frame decodes
nothing. -/
theorem corrupt_frame_recovery_behavior_witness :
    (∀ c ∈ ("not json").toList, c.toNat < 128) ∧
    (∀ c ∈ asciiBody, c.toNat < 128) ∧
    processChunks [] [encodeFrame (("not json").toList) ++ encodeFrame asciiBody]
        = ([("not json").toList, asciiBody], []) ∧
    findSub badHeaderBlock crlf2 = some 12 ∧
    findCL (badHeaderBlock.take 12) = none ∧
    processChunks [] [badHeaderBlock ++ encodeFrame asciiBody]
        = ([], badHeaderBlock ++ encodeFrame asciiBody) :=
  ⟨by decide, by decide,
   corrupt_frame_recovery_behavior.1 (("not json").toList) asciiBody (by decide) (by decide),
   rfl, rfl,
   corrupt_frame_recovery_behavior.2 badHeaderBlock (encodeFrame asciiBody) 12 rfl rfl⟩
